import Mathlib

/-!
Verification of the Ludo game-session engine (`GameManager`).

The definitions below are a shallow embedding of the server-side game
manager: the data model (`GamePiece`, `Player`, `GameRoom`), the room
lifecycle operations (`createRoom`, `joinRoom`, `chooseColor`,
`setReady`, `startGame`, `leaveRoom`), the weighted-dice probability
model (`rollWeights`, `normalizeWeights`, `sampleRoll`), and the turn
state machine (`rollDiceWith`, `movePiece`).  Fallible operations
return `Except GameError _`; the thrown JavaScript exceptions and
`null` returns of the source are mapped to `GameError` values.  Dice
randomness is injected: the sampled roll is a parameter of
`rollDiceWith`, and `sampleRoll` models the cumulative-subtraction
sampling loop over exact rational weights.
-/

inductive PlayerColor
  | red
  | green
  | yellow
  | blue
  deriving DecidableEq, Repr

inductive GameMode
  | twoPlayer
  | fourPlayer
  deriving DecidableEq, Repr

structure GamePiece where
  id : String
  color : PlayerColor
  position : Int
  isSafe : Bool
  deriving DecidableEq, Repr

structure Player where
  id : String
  name : String
  color : Option PlayerColor
  ready : Bool
  deriving DecidableEq, Repr

structure GameState where
  pieces : List GamePiece
  currentTurnIndex : Nat
  diceValue : Option Nat
  lastDiceValue : Option Nat
  isFirstRollOfTurn : Bool
  waitingForMove : Bool
  winner : Option PlayerColor
  started : Bool
  deriving DecidableEq, Repr

structure GameRoom where
  code : String
  players : List Player
  gameMode : GameMode
  gameState : GameState
  createdAt : Nat
  deriving DecidableEq, Repr

/-- Error outcomes of the fallible operations: the thrown exceptions of the
source, plus `notStarted` / `noCurrentPlayer` for the `null`-return and
out-of-bounds-index paths. -/
inductive GameError
  | roomFull
  | gameAlreadyStarted
  | colorUnavailable
  | colorTaken
  | notAllReady
  | notStarted
  | noCurrentPlayer
  | notYourTurn
  | alreadyRolled
  | mustRollFirst
  | invalidPiece
  | invalidMove
  deriving DecidableEq, Repr

def PLAYER_COLORS_4P : List PlayerColor :=
  [PlayerColor.red, PlayerColor.green, PlayerColor.yellow, PlayerColor.blue]

def PLAYER_COLORS_2P : List PlayerColor :=
  [PlayerColor.red, PlayerColor.yellow]

/-- `room.gameMode === '2-player' ? 2 : 4`. -/
def maxPlayersFor (mode : GameMode) : Nat :=
  match mode with
  | GameMode.twoPlayer => 2
  | GameMode.fourPlayer => 4

def availableColorsFor (mode : GameMode) : List PlayerColor :=
  match mode with
  | GameMode.twoPlayer => PLAYER_COLORS_2P
  | GameMode.fourPlayer => PLAYER_COLORS_4P

def createRoom (code playerId playerName : String) (gameMode : GameMode)
    (now : Nat) : GameRoom :=
  { code := code
    players := [{ id := playerId, name := playerName, color := none, ready := false }]
    gameMode := gameMode
    gameState :=
      { pieces := []
        currentTurnIndex := 0
        diceValue := none
        lastDiceValue := none
        isFirstRollOfTurn := true
        waitingForMove := false
        winner := none
        started := false }
    createdAt := now }

def joinRoom (room : GameRoom) (playerId playerName : String) :
    Except GameError GameRoom :=
  if maxPlayersFor room.gameMode ≤ room.players.length then
    Except.error GameError.roomFull
  else if room.gameState.started then
    Except.error GameError.gameAlreadyStarted
  else
    let players := room.players ++
      [{ id := playerId, name := playerName, color := none, ready := false }]
    Except.ok { room with players := players }

/-- Mutate the first player with a matching id (the source's
`players.find(...)` followed by in-place mutation). -/
def updateFirst (ps : List Player) (pid : String) (f : Player → Player) : List Player :=
  match ps with
  | [] => []
  | p :: rest => if p.id = pid then f p :: rest else p :: updateFirst rest pid f

def chooseColor (room : GameRoom) (playerId : String) (color : PlayerColor) :
    Except GameError GameRoom :=
  if ¬ (availableColorsFor room.gameMode).contains color then
    Except.error GameError.colorUnavailable
  else if room.players.any (fun p => p.color == some color && p.id != playerId) then
    Except.error GameError.colorTaken
  else
    let players := updateFirst room.players playerId
      (fun p => { p with color := some color })
    Except.ok { room with players := players }

def setReady (room : GameRoom) (playerId : String) : GameRoom :=
  let players := updateFirst room.players playerId
    (fun p => if p.color.isSome then { p with ready := true } else p)
  { room with players := players }

def canStartGame (room : GameRoom) : Bool :=
  decide (2 ≤ room.players.length) &&
  decide (room.players.length ≤ maxPlayersFor room.gameMode) &&
  room.players.all (fun p => p.color.isSome && p.ready)

def colorName (c : PlayerColor) : String :=
  match c with
  | PlayerColor.red => "red"
  | PlayerColor.green => "green"
  | PlayerColor.yellow => "yellow"
  | PlayerColor.blue => "blue"

/-- Four pieces per colored player, all in base (`position = -1`). -/
def initialPieces (players : List Player) : List GamePiece :=
  players.flatMap (fun p =>
    match p.color with
    | some c =>
      (List.range 4).map (fun i =>
        { id := colorName c ++ "-" ++ toString i
          color := c
          position := -1
          isSafe := true })
    | none => [])

def startGame (room : GameRoom) : Except GameError GameRoom :=
  if ¬ canStartGame room then
    Except.error GameError.notAllReady
  else
    Except.ok { room with gameState :=
      { pieces := initialPieces room.players
        currentTurnIndex := 0
        diceValue := none
        lastDiceValue := none
        isFirstRollOfTurn := true
        waitingForMove := false
        winner := none
        started := true } }

def leaveRoom (room : GameRoom) (playerId : String) : Option GameRoom :=
  let players := room.players.filter (fun p => p.id != playerId)
  if players.length = 0 then none
  else some { room with players := players }

/- ## Probability model -/

def baseWeights : List ℚ := [15, 15, 15, 15, 15, 25]

/-- The weight-vector computation of `rollWeightedDice` (the part before
normalization and sampling). -/
def rollWeights (allPiecesInBase : Bool) (lastRoll : Option Nat)
    (isFirstRoll : Bool) : List ℚ :=
  if allPiecesInBase then [10, 10, 10, 10, 10, 50]
  else
    match lastRoll, isFirstRoll with
    | some lr, true =>
      let lastRollIndex := lr - 1
      let originalWeight := baseWeights.getD lastRollIndex 0
      let reducedWeight : ℚ := 2
      let weightToRedistribute := originalWeight - reducedWeight
      if 0 < weightToRedistribute then
        let baseExtraPerNumber := weightToRedistribute / 5
        (List.range 6).map (fun i =>
          if i = lastRollIndex then reducedWeight
          else if i = 5 then baseWeights.getD i 0 + baseExtraPerNumber * (3 / 2)
          else baseWeights.getD i 0 + baseExtraPerNumber * (7 / 8))
      else baseWeights
    | _, _ => baseWeights

def normalizeWeights (ws : List ℚ) : List ℚ :=
  let totalWeight := ws.foldl (· + ·) 0
  ws.map (fun w => w / totalWeight * 100)

/-- The sampling loop: subtract weights in order, the first that drives the
remainder ≤ 0 gives the outcome `i + 1`; the initial value of `roll` is 1. -/
def sampleLoop : List ℚ → ℚ → Nat → Nat
  | [], _, _ => 1
  | w :: rest, random, i =>
    let random := random - w
    if random ≤ 0 then i + 1 else sampleLoop rest random (i + 1)

def sampleRoll (ws : List ℚ) (random : ℚ) : Nat :=
  sampleLoop ws random 0

/-- The room-level weight computation of `rollWeightedDice`: extract the
current player, test whether all of their pieces are in base, and feed
`lastDiceValue` / `isFirstRollOfTurn` to `rollWeights`.  `none` models the
JavaScript crash when `currentTurnIndex` is out of bounds. -/
def roomRollWeights (room : GameRoom) : Option (List ℚ) :=
  match room.players.get? room.gameState.currentTurnIndex with
  | none => none
  | some currentPlayer =>
    let playerPieces := room.gameState.pieces.filter
      (fun p => some p.color == currentPlayer.color)
    let allPiecesInBase := playerPieces.all (fun p => p.position == -1)
    some (rollWeights allPiecesInBase room.gameState.lastDiceValue
      room.gameState.isFirstRollOfTurn)

/-- Modelled from the spec: the repeat-avoidance weight vector exactly as the
spec words it — weight at index `previousFinalRoll−1` reduced to `2`, the
removed weight `original−2` split into five even shares, face 6 boosted by
`1.5×` a share, the other redistribution targets by `0.875×` a share.  Used
only to compare the source's computation against the spec's words. -/
def specBiasVector (k : Nat) : List ℚ :=
  let original := baseWeights.getD (k - 1) 0
  let share := (original - 2) / 5
  (List.range 6).map (fun i =>
    if i = k - 1 then 2
    else if i = 5 then baseWeights.getD i 0 + (3 / 2) * share
    else baseWeights.getD i 0 + (7 / 8) * share)

/- ## Movement engine -/

def SAFE_SPOT_POSITIONS : List Int := [0, 8, 13, 21, 26, 34, 39, 47]

def PLAYER_START_OFFSETS (c : PlayerColor) : Int :=
  match c with
  | PlayerColor.red => 0
  | PlayerColor.green => 13
  | PlayerColor.yellow => 26
  | PlayerColor.blue => 39

def canMovePiece (piece : GamePiece) (roll : Nat) : Bool :=
  if piece.position = -1 then roll == 6
  else if 57 < piece.position + (roll : Int) then false
  else true

def getAbsoluteTrackPosition (piece : GamePiece) : Int :=
  if piece.position < 0 ∨ 50 < piece.position then -1
  else (piece.position + PLAYER_START_OFFSETS piece.color) % 52

def isPieceOnSafeSpot (piece : GamePiece) : Bool :=
  if 51 ≤ piece.position then true
  else if piece.position < 0 then true
  else if piece.position = 99 then true
  else SAFE_SPOT_POSITIONS.contains (getAbsoluteTrackPosition piece)

/- ## Turn state machine -/

def rollDiceWith (room : GameRoom) (pid : String) (roll : Nat) :
    Except GameError GameRoom :=
  if room.gameState.started = false then Except.error GameError.notStarted
  else
    match room.players.get? room.gameState.currentTurnIndex with
    | none => Except.error GameError.noCurrentPlayer
    | some currentPlayer =>
      if currentPlayer.id != pid then Except.error GameError.notYourTurn
      else if room.gameState.waitingForMove then Except.error GameError.alreadyRolled
      else
        let gs1 := { room.gameState with
          diceValue := some roll, isFirstRollOfTurn := false }
        let playerPieces := gs1.pieces.filter
          (fun p => some p.color == currentPlayer.color)
        let hasValidMoves := playerPieces.any (fun p => canMovePiece p roll)
        if hasValidMoves then
          Except.ok { room with gameState := { gs1 with waitingForMove := true } }
        else if roll ≠ 6 then
          Except.ok { room with gameState := { gs1 with
            lastDiceValue := some roll
            isFirstRollOfTurn := true
            currentTurnIndex := (gs1.currentTurnIndex + 1) % room.players.length
            diceValue := none } }
        else
          Except.ok { room with gameState := { gs1 with diceValue := none } }

/-- `position = -1 ? 0 : position + roll`. -/
def newPosition (piece : GamePiece) (roll : Nat) : Int :=
  if piece.position = -1 then 0 else piece.position + roll

/-- The moved piece: advanced, with its safe flag recomputed. -/
def movedPieceOf (piece : GamePiece) (roll : Nat) : GamePiece :=
  { piece with
    position := newPosition piece roll
    isSafe := isPieceOnSafeSpot { piece with position := newPosition piece roll } }

/-- The pieces list after the in-place mutation of the moved piece. -/
def substMoved (pieces : List GamePiece) (piece : GamePiece) (roll : Nat) :
    List GamePiece :=
  pieces.map (fun p => if p.id == piece.id then movedPieceOf piece roll else p)

/-- The capture scan: on the main track and not on a safe spot, the first
other-colored on-track piece sharing the landing absolute cell. -/
def capturedOf (pieces1 : List GamePiece) (piece : GamePiece) (roll : Nat) :
    Option GamePiece :=
  let moved := movedPieceOf piece roll
  if 0 ≤ moved.position ∧ moved.position ≤ 50 then
    let absolutePos := getAbsoluteTrackPosition moved
    if SAFE_SPOT_POSITIONS.contains absolutePos then none
    else
      pieces1.find? (fun other =>
        other.id != piece.id && other.color != piece.color &&
        decide (0 ≤ other.position) && decide (other.position ≤ 50) &&
        getAbsoluteTrackPosition other == absolutePos)
  else none

/-- Send the captured piece (if any) back to base. -/
def applyCapture (pieces1 : List GamePiece) (captured : Option GamePiece) :
    List GamePiece :=
  match captured with
  | some cpiece =>
    pieces1.map (fun p =>
      if p.id == cpiece.id then { p with position := -1, isSafe := true } else p)
  | none => pieces1

/-- Normalize the moved piece to 99 when it reached exactly 57. -/
def applyFinish (pieces2 : List GamePiece) (piece : GamePiece) : List GamePiece :=
  pieces2.map (fun p =>
    if p.id == piece.id && p.position == 57 then
      { p with position := 99, isSafe := true }
    else p)

/-- The winner update: the mover's color when all of their pieces are at
99, otherwise the previous winner. -/
def winnerOf (pieces3 : List GamePiece) (currentPlayer : Player)
    (old : Option PlayerColor) : Option PlayerColor :=
  if (pieces3.filter (fun p => some p.color == currentPlayer.color)).all
      (fun p => p.position == 99) then currentPlayer.color
  else old

/-- The execution phase of `movePiece` (everything after the legality
checks): advance the piece, recompute its safe flag, resolve at most one
capture, normalize 57 to 99, detect the winner, and apply the next-turn
rule. -/
def resolveMove (room : GameRoom) (currentPlayer : Player) (piece : GamePiece)
    (roll : Nat) : GameRoom × Option GamePiece :=
  let pieces1 := substMoved room.gameState.pieces piece roll
  let captured := capturedOf pieces1 piece roll
  let pieces3 := applyFinish (applyCapture pieces1 captured) piece
  let winner := winnerOf pieces3 currentPlayer room.gameState.winner
  let getAnotherTurn := roll == 6 || captured.isSome
  let gsBase := { room.gameState with
    pieces := pieces3, winner := winner, waitingForMove := false,
    diceValue := none }
  let gsFinal :=
    if !getAnotherTurn && winner.isNone then
      { gsBase with
        lastDiceValue := some roll
        isFirstRollOfTurn := true
        currentTurnIndex := (room.gameState.currentTurnIndex + 1) % room.players.length }
    else gsBase
  ({ room with gameState := gsFinal }, captured)

def movePiece (room : GameRoom) (pid : String) (pieceId : String) :
    Except GameError (GameRoom × Option GamePiece) :=
  if room.gameState.started = false then Except.error GameError.notStarted
  else
    match room.players.get? room.gameState.currentTurnIndex with
    | none => Except.error GameError.noCurrentPlayer
    | some currentPlayer =>
      if currentPlayer.id != pid then Except.error GameError.notYourTurn
      else if !room.gameState.waitingForMove then Except.error GameError.mustRollFirst
      else
        match room.gameState.diceValue with
        | none => Except.error GameError.mustRollFirst
        | some roll =>
          match room.gameState.pieces.find? (fun p => p.id == pieceId) with
          | none => Except.error GameError.invalidPiece
          | some piece =>
            if some piece.color != currentPlayer.color then
              Except.error GameError.invalidPiece
            else if !canMovePiece piece roll then
              Except.error GameError.invalidMove
            else
              Except.ok (resolveMove room currentPlayer piece roll)

/- ## Reachability -/

/-- One observable transition of a room.  The dice roll fed to
`rollDiceWith` is constrained to the faces 1..6 that the sampler can
produce. -/
inductive Step : GameRoom → GameRoom → Prop
  | join {r r' : GameRoom} (pid nm : String) :
      joinRoom r pid nm = Except.ok r' → Step r r'
  | choose {r r' : GameRoom} (pid : String) (c : PlayerColor) :
      chooseColor r pid c = Except.ok r' → Step r r'
  | ready {r : GameRoom} (pid : String) :
      Step r (setReady r pid)
  | start {r r' : GameRoom} :
      startGame r = Except.ok r' → Step r r'
  | roll {r r' : GameRoom} (pid : String) (k : Nat) :
      1 ≤ k → k ≤ 6 → rollDiceWith r pid k = Except.ok r' → Step r r'
  | move {r r' : GameRoom} (pid pieceId : String) (cp : Option GamePiece) :
      movePiece r pid pieceId = Except.ok (r', cp) → Step r r'
  | leave {r r' : GameRoom} (pid : String) :
      leaveRoom r pid = some r' → Step r r'

/-- A room is reachable when some sequence of operations produces it from a
freshly created room. -/
def Reachable (r : GameRoom) : Prop :=
  ∃ code pid nm mode now,
    Relation.ReflTransGen Step (createRoom code pid nm mode now) r

/-- The position domain the spec claims for every piece:
`{-1} ∪ [0,56] ∪ {99}`. -/
def PosOKp (p : GamePiece) : Prop :=
  p.position = -1 ∨ (0 ≤ p.position ∧ p.position ≤ 56) ∨ p.position = 99

def PosOK (r : GameRoom) : Prop :=
  ∀ p ∈ r.gameState.pieces, PosOKp p

/-- Bounds maintained for the dice fields: a pending roll is a face 1..6,
and the recorded previous-player roll is 1..5 (a 6 is never recorded,
because rolling a 6 always retains the turn). -/
def DiceOK (r : GameRoom) : Prop :=
  (∀ k, r.gameState.diceValue = some k → 1 ≤ k ∧ k ≤ 6) ∧
  (∀ k, r.gameState.lastDiceValue = some k → 1 ≤ k ∧ k ≤ 5)

/- ## Concrete rooms used to instantiate the theorems -/

def okOrRoom (e : Except GameError GameRoom) (d : GameRoom) : GameRoom :=
  match e with
  | Except.ok r => r
  | Except.error _ => d

def okOrMove (e : Except GameError (GameRoom × Option GamePiece))
    (d : GameRoom × Option GamePiece) : GameRoom × Option GamePiece :=
  match e with
  | Except.ok x => x
  | Except.error _ => d

/-- A fresh two-player room created by Alice. -/
def w0 : GameRoom := createRoom "ABC123" "p1" "Alice" GameMode.twoPlayer 0

def w1 : GameRoom := okOrRoom (joinRoom w0 "p2" "Bob") w0

def w2 : GameRoom := okOrRoom (chooseColor w1 "p1" PlayerColor.red) w1

def w3 : GameRoom := okOrRoom (chooseColor w2 "p2" PlayerColor.yellow) w2

def w4 : GameRoom := setReady w3 "p1"

def w5 : GameRoom := setReady w4 "p2"

/-- The started two-player game of spec scenario A. -/
def w6 : GameRoom := okOrRoom (startGame w5) w5

/-- After Alice rolls a 3 with every red piece in base: no legal move, so the
turn auto-advances to Bob and the 3 is recorded as the bias seed. -/
def w7 : GameRoom := okOrRoom (rollDiceWith w6 "p1" 3) w6

/-- Bob — the active player — leaves the started game. -/
def w8 : GameRoom := (leaveRoom w7 "p2").getD w7

/-- Alice rolls a 6 in the just-started game. -/
def w6r : GameRoom := okOrRoom (rollDiceWith w6 "p1" 6) w6

/-- Alice moves red-0 out of base on the 6. -/
def w6m : GameRoom × Option GamePiece :=
  okOrMove (movePiece w6r "p1" "red-0") (w6r, none)

/-- Short-hand for a piece literal. -/
def pc (i : String) (c : PlayerColor) (pos : Int) : GamePiece :=
  { id := i, color := c, position := pos, isSafe := false }

/-- A mid-game position: red to move with a pending 2, red-0 two cells
behind the absolute cell occupied by yellow-0. -/
def capRoom : GameRoom :=
  { code := "XYZ999"
    players := [{ id := "p1", name := "A", color := some PlayerColor.red, ready := true },
                { id := "p2", name := "B", color := some PlayerColor.yellow, ready := true }]
    gameMode := GameMode.twoPlayer
    gameState :=
      { pieces := [pc "red-0" PlayerColor.red 3, pc "red-1" PlayerColor.red (-1),
                   pc "yellow-0" PlayerColor.yellow 31, pc "yellow-1" PlayerColor.yellow (-1)]
        currentTurnIndex := 0
        diceValue := some 2
        lastDiceValue := none
        isFirstRollOfTurn := false
        waitingForMove := true
        winner := none
        started := true }
    createdAt := 0 }

/-- Moving red-0 in `capRoom`: lands on absolute cell 5 and captures
yellow-0. -/
def capMove : GameRoom × Option GamePiece :=
  okOrMove (movePiece capRoom "p1" "red-0") (capRoom, none)

/-- A mid-game position where red-0 sits at 55 with a pending 5: the move
would overshoot (55 + 5 > 57). -/
def overRoom : GameRoom :=
  { capRoom with gameState := { capRoom.gameState with
      diceValue := some 5
      pieces := [pc "red-0" PlayerColor.red 55, pc "red-1" PlayerColor.red (-1),
                 pc "yellow-0" PlayerColor.yellow 31] } }

/- ## Basic lemmas about the probability model -/

lemma sampleLoop_bounds (l : List ℚ) (x : ℚ) (i : Nat) (hne : l ≠ []) :
    1 ≤ sampleLoop l x i ∧ sampleLoop l x i ≤ i + l.length := by
  induction l generalizing x i with
  | nil => exact absurd rfl hne
  | cons w rest ih =>
    simp only [sampleLoop]
    split
    · simp only [List.length_cons]
      omega
    · cases rest with
      | nil =>
        simp only [sampleLoop, List.length_cons, List.length_nil]
        omega
      | cons a b =>
        have h := ih (x - w) (i + 1) (by simp)
        simp only [List.length_cons] at h ⊢
        omega

lemma rollWeights_length (b : Bool) (lr : Option Nat) (fr : Bool) :
    (rollWeights b lr fr).length = 6 := by
  cases b with
  | true => rfl
  | false =>
    cases lr with
    | none => cases fr <;> rfl
    | some k =>
      cases fr with
      | false => rfl
      | true =>
        unfold rollWeights
        simp only [Bool.false_eq_true, if_false]
        split
        · simp
        · rfl

lemma foldl_add_eq_sum (l : List ℚ) : l.foldl (· + ·) 0 = l.sum := by
  rw [List.sum_eq_foldl]

lemma sum_map_div_mul (l : List ℚ) (t c : ℚ) :
    (l.map (fun w => w / t * c)).sum = l.sum / t * c := by
  induction l with
  | nil => simp
  | cons a l ih =>
    simp only [List.map_cons, List.sum_cons, ih, add_div, add_mul]

lemma normalizeWeights_sum (ws : List ℚ) (h : ws.sum ≠ 0) :
    (normalizeWeights ws).sum = 100 := by
  unfold normalizeWeights
  rw [foldl_add_eq_sum, sum_map_div_mul, div_self h, one_mul]

lemma normalizeWeights_length (ws : List ℚ) :
    (normalizeWeights ws).length = ws.length := by
  unfold normalizeWeights
  exact List.length_map _ _

lemma rollWeights_sum_ne_zero (b : Bool) (lr : Option Nat) (fr : Bool)
    (hk : ∀ k, lr = some k → 1 ≤ k ∧ k ≤ 6) :
    (rollWeights b lr fr).sum ≠ 0 := by
  cases b with
  | true =>
    show ([10, 10, 10, 10, 10, 50] : List ℚ).sum ≠ 0
    norm_num
  | false =>
    cases lr with
    | none =>
      cases fr <;>
        · show baseWeights.sum ≠ 0
          norm_num [baseWeights]
    | some k =>
      cases fr with
      | false =>
        show baseWeights.sum ≠ 0
        norm_num [baseWeights]
      | true =>
        have hb := hk k rfl
        obtain ⟨h1, h6⟩ := hb
        have hr : List.range 6 = [0, 1, 2, 3, 4, 5] := by decide
        interval_cases k <;>
          · norm_num [rollWeights, baseWeights, hr]

/-- C3: in every branch of the bias rule the weight vector actually used for
sampling (the normalized one) sums to exactly 100 in exact rational
arithmetic, and every uniform draw in `[0,100)` yields an outcome face in
`1..6` through the cumulative-subtraction loop. -/
theorem dice_weights_sum_and_sample (allInBase : Bool) (lastRoll : Option Nat)
    (isFirstRoll : Bool) (hk : ∀ k, lastRoll = some k → 1 ≤ k ∧ k ≤ 6) :
    (normalizeWeights (rollWeights allInBase lastRoll isFirstRoll)).sum = 100 ∧
    ∀ x : ℚ, 0 ≤ x → x < 100 →
      1 ≤ sampleRoll (normalizeWeights (rollWeights allInBase lastRoll isFirstRoll)) x ∧
      sampleRoll (normalizeWeights (rollWeights allInBase lastRoll isFirstRoll)) x ≤ 6 := by
  have hlen : (normalizeWeights (rollWeights allInBase lastRoll isFirstRoll)).length = 6 := by
    rw [normalizeWeights_length, rollWeights_length]
  refine ⟨normalizeWeights_sum _ (rollWeights_sum_ne_zero _ _ _ hk), ?_⟩
  intro x _ _
  have hne : normalizeWeights (rollWeights allInBase lastRoll isFirstRoll) ≠ [] := by
    intro hno
    rw [hno] at hlen
    simp at hlen
  have h := sampleLoop_bounds _ x 0 hne
  rw [hlen] at h
  exact ⟨h.1, by simpa [sampleRoll] using h.2⟩

/-- Witness for C3 at the branch `previousFinalRoll = 3`, first roll, not all
in base, with the draw `x = 50`. -/
theorem dice_weights_sum_and_sample_witness :
    (normalizeWeights (rollWeights false (some 3) true)).sum = 100 ∧
    (1 ≤ sampleRoll (normalizeWeights (rollWeights false (some 3) true)) 50 ∧
     sampleRoll (normalizeWeights (rollWeights false (some 3) true)) 50 ≤ 6) := by
  have h := dice_weights_sum_and_sample false (some 3) true
    (by intro k hk; cases hk; omega)
  exact ⟨h.1, h.2 50 (by norm_num) (by norm_num)⟩

/- ## Reachability of the concrete rooms -/

lemma reach_w6 : Reachable w6 := by
  refine ⟨"ABC123", "p1", "Alice", GameMode.twoPlayer, 0, ?_⟩
  have s1 : Step w0 w1 := Step.join "p2" "Bob" rfl
  have s2 : Step w1 w2 := Step.choose "p1" PlayerColor.red rfl
  have s3 : Step w2 w3 := Step.choose "p2" PlayerColor.yellow rfl
  have s4 : Step w3 w4 := Step.ready "p1"
  have s5 : Step w4 w5 := Step.ready "p2"
  have s6 : Step w5 w6 := Step.start rfl
  exact (Relation.ReflTransGen.head s1 (Relation.ReflTransGen.head s2
    (Relation.ReflTransGen.head s3 (Relation.ReflTransGen.head s4
    (Relation.ReflTransGen.head s5 (Relation.ReflTransGen.head s6
    Relation.ReflTransGen.refl))))))

lemma reach_step {r r' : GameRoom} (h : Reachable r) (s : Step r r') :
    Reachable r' := by
  obtain ⟨c, p, n, m, t, hchain⟩ := h
  exact ⟨c, p, n, m, t, Relation.ReflTransGen.tail hchain s⟩

lemma reach_w7 : Reachable w7 :=
  reach_step reach_w6 (Step.roll "p1" 3 (by norm_num) (by norm_num) rfl)

lemma reach_w8 : Reachable w8 :=
  reach_step reach_w7 (Step.leave "p2" rfl)

/-- C1: the claimed invariant fails on the code.  `w8` is reachable — create
a two-player room, ready both players, start, let red roll a 3 with every
piece in base (no legal move, so the turn auto-advances to the second
player), then let that second, currently active, player leave.  `leaveRoom`
removes the player but never adjusts `currentTurnIndex`, leaving index 1
over a 1-element player list: `currentTurnIndex` no longer indexes a live
player in a started game. -/
theorem currentTurnIndex_dangles_after_leave :
    Reachable w8 ∧ w8.gameState.started = true ∧
    w8.gameState.currentTurnIndex = 1 ∧ w8.players.length = 1 :=
  ⟨reach_w8, rfl, rfl, rfl⟩

/- ## Operations that do not touch the game state -/

lemma joinRoom_gameState {r r' : GameRoom} {pid nm : String}
    (h : joinRoom r pid nm = Except.ok r') : r'.gameState = r.gameState := by
  unfold joinRoom at h
  split at h
  · cases h
  · split at h
    · cases h
    · cases h
      rfl

lemma chooseColor_gameState {r r' : GameRoom} {pid : String} {c : PlayerColor}
    (h : chooseColor r pid c = Except.ok r') : r'.gameState = r.gameState := by
  unfold chooseColor at h
  split at h
  · cases h
  · split at h
    · cases h
    · cases h
      rfl

lemma setReady_gameState (r : GameRoom) (pid : String) :
    (setReady r pid).gameState = r.gameState := rfl

lemma leaveRoom_gameState {r r' : GameRoom} {pid : String}
    (h : leaveRoom r pid = some r') : r'.gameState = r.gameState := by
  simp only [leaveRoom] at h
  split at h
  · cases h
  · cases h
    rfl

/- ## Inversion of the turn-machine operations -/

lemma movePiece_ok_elim {room : GameRoom} {pid pieceId : String}
    {out : GameRoom × Option GamePiece}
    (h : movePiece room pid pieceId = Except.ok out) :
    ∃ currentPlayer roll piece,
      room.gameState.started = true ∧
      room.players.get? room.gameState.currentTurnIndex = some currentPlayer ∧
      currentPlayer.id = pid ∧
      room.gameState.waitingForMove = true ∧
      room.gameState.diceValue = some roll ∧
      room.gameState.pieces.find? (fun p => p.id == pieceId) = some piece ∧
      some piece.color = currentPlayer.color ∧
      canMovePiece piece roll = true ∧
      out = resolveMove room currentPlayer piece roll := by
  unfold movePiece at h
  split at h
  · cases h
  next hstart =>
    split at h
    · cases h
    next currentPlayer hcp =>
      split at h
      · cases h
      next hpid =>
        split at h
        · cases h
        next hwait =>
          split at h
          · cases h
          next roll hdice =>
            split at h
            · cases h
            next piece hfind =>
              split at h
              · cases h
              next hcolor =>
                split at h
                · cases h
                next hcan =>
                  cases h
                  refine ⟨currentPlayer, roll, piece, ?_, hcp, ?_, ?_, hdice,
                    hfind, ?_, ?_, rfl⟩
                  · revert hstart
                    cases room.gameState.started <;> simp
                  · simpa using hpid
                  · revert hwait
                    cases room.gameState.waitingForMove <;> simp
                  · simpa using hcolor
                  · revert hcan
                    cases canMovePiece piece roll <;> simp

lemma rollDiceWith_ok_elim {room : GameRoom} {pid : String} {k : Nat} {r' : GameRoom}
    (h : rollDiceWith room pid k = Except.ok r') :
    ∃ currentPlayer,
      room.gameState.started = true ∧
      room.players.get? room.gameState.currentTurnIndex = some currentPlayer ∧
      currentPlayer.id = pid ∧
      room.gameState.waitingForMove = false ∧
      (((room.gameState.pieces.filter (fun p => some p.color == currentPlayer.color)).any
            (fun p => canMovePiece p k) = true ∧
          r' = { room with gameState := { room.gameState with
            diceValue := some k, isFirstRollOfTurn := false,
            waitingForMove := true } }) ∨
        ((room.gameState.pieces.filter (fun p => some p.color == currentPlayer.color)).any
            (fun p => canMovePiece p k) = false ∧ k ≠ 6 ∧
          r' = { room with gameState := { room.gameState with
            diceValue := none, isFirstRollOfTurn := true,
            lastDiceValue := some k,
            currentTurnIndex :=
              (room.gameState.currentTurnIndex + 1) % room.players.length } }) ∨
        ((room.gameState.pieces.filter (fun p => some p.color == currentPlayer.color)).any
            (fun p => canMovePiece p k) = false ∧ k = 6 ∧
          r' = { room with gameState := { room.gameState with
            diceValue := none, isFirstRollOfTurn := false } })) := by
  unfold rollDiceWith at h
  split at h
  · cases h
  next hstart =>
    split at h
    · cases h
    next currentPlayer hcp =>
      split at h
      · cases h
      next hpid =>
        split at h
        · cases h
        next hwait =>
          refine ⟨currentPlayer, ?_, hcp, ?_, ?_, ?_⟩
          · revert hstart
            cases room.gameState.started <;> simp
          · simpa using hpid
          · revert hwait
            cases room.gameState.waitingForMove <;> simp
          · dsimp only at h
            split at h
            next hmoves =>
              left
              cases h
              exact ⟨by simpa using hmoves, rfl⟩
            next hmoves =>
              split at h
              next hk6 =>
                right; left
                cases h
                refine ⟨by simpa using hmoves, hk6, rfl⟩
              next hk6 =>
                right; right
                cases h
                refine ⟨by simpa using hmoves, by simpa using hk6, rfl⟩

lemma rollDiceWith_pieces {room : GameRoom} {pid : String} {k : Nat} {r' : GameRoom}
    (h : rollDiceWith room pid k = Except.ok r') :
    r'.gameState.pieces = room.gameState.pieces := by
  obtain ⟨cp, -, -, -, -, hc⟩ := rollDiceWith_ok_elim h
  rcases hc with ⟨-, rfl⟩ | ⟨-, -, rfl⟩ | ⟨-, -, rfl⟩ <;> rfl

/- ## Structure of `resolveMove` -/

lemma resolveMove_pieces (room : GameRoom) (curP : Player) (piece : GamePiece)
    (roll : Nat) :
    (resolveMove room curP piece roll).1.gameState.pieces =
      applyFinish
        (applyCapture (substMoved room.gameState.pieces piece roll)
          (capturedOf (substMoved room.gameState.pieces piece roll) piece roll))
        piece := by
  dsimp only [resolveMove]
  split <;> rfl

lemma resolveMove_captured (room : GameRoom) (curP : Player) (piece : GamePiece)
    (roll : Nat) :
    (resolveMove room curP piece roll).2 =
      capturedOf (substMoved room.gameState.pieces piece roll) piece roll := by
  dsimp only [resolveMove]

lemma resolveMove_diceValue (room : GameRoom) (curP : Player) (piece : GamePiece)
    (roll : Nat) :
    (resolveMove room curP piece roll).1.gameState.diceValue = none := by
  dsimp only [resolveMove]
  split <;> rfl

lemma resolveMove_players (room : GameRoom) (curP : Player) (piece : GamePiece)
    (roll : Nat) :
    (resolveMove room curP piece roll).1.players = room.players := by
  dsimp only [resolveMove]

lemma resolveMove_lastDice (room : GameRoom) (curP : Player) (piece : GamePiece)
    (roll : Nat) :
    (resolveMove room curP piece roll).1.gameState.lastDiceValue =
        room.gameState.lastDiceValue ∨
      ((resolveMove room curP piece roll).1.gameState.lastDiceValue = some roll ∧
        roll ≠ 6) := by
  dsimp only [resolveMove]
  split
  next hcond =>
    right
    refine ⟨rfl, ?_⟩
    simp only [Bool.and_eq_true, Bool.not_eq_true', Bool.or_eq_false_iff] at hcond
    have := hcond.1.1
    simp at this
    omega
  next => left; rfl

/- ## Position bounds through a resolved move -/

lemma movedPieceOf_id (piece : GamePiece) (roll : Nat) :
    (movedPieceOf piece roll).id = piece.id := rfl

lemma movedPieceOf_position_bounds {piece : GamePiece} {roll : Nat}
    (hcan : canMovePiece piece roll = true) (hp : PosOKp piece) :
    0 ≤ (movedPieceOf piece roll).position ∧
      (movedPieceOf piece roll).position ≤ 57 := by
  have hpos : (movedPieceOf piece roll).position = newPosition piece roll := rfl
  rw [hpos]
  unfold newPosition
  by_cases hb : piece.position = -1
  · rw [if_pos hb]
    exact ⟨le_refl 0, by norm_num⟩
  · rw [if_neg hb]
    unfold canMovePiece at hcan
    rw [if_neg hb] at hcan
    split at hcan
    · cases hcan
    next hle =>
      push_neg at hle
      have hr : (0 : Int) ≤ (roll : Int) := Int.ofNat_nonneg roll
      rcases hp with h1 | h2 | h3
      · exact absurd h1 hb
      · exact ⟨by omega, hle⟩
      · exfalso
        omega

lemma substMoved_mem {pieces : List GamePiece} {piece : GamePiece} {roll : Nat}
    {q : GamePiece} (hq : q ∈ substMoved pieces piece roll) :
    q = movedPieceOf piece roll ∨ q ∈ pieces := by
  unfold substMoved at hq
  obtain ⟨p, hp, hpq⟩ := List.mem_map.1 hq
  by_cases hid : (p.id == piece.id) = true
  · rw [if_pos hid] at hpq
    exact Or.inl hpq.symm
  · rw [if_neg hid] at hpq
    right
    rw [← hpq]
    exact hp

lemma applyCapture_mem {pieces1 : List GamePiece} {captured : Option GamePiece}
    {q : GamePiece} (hq : q ∈ applyCapture pieces1 captured) :
    q.position = -1 ∨ q ∈ pieces1 := by
  unfold applyCapture at hq
  cases captured with
  | none => exact Or.inr hq
  | some c =>
    obtain ⟨p, hp, hpq⟩ := List.mem_map.1 hq
    by_cases hid : (p.id == c.id) = true
    · rw [if_pos hid] at hpq
      left
      rw [← hpq]
    · rw [if_neg hid] at hpq
      right
      rw [← hpq]
      exact hp

lemma applyFinish_mem {pieces2 : List GamePiece} {piece : GamePiece} {q : GamePiece}
    (hq : q ∈ applyFinish pieces2 piece) :
    ∃ q2, q2 ∈ pieces2 ∧
      ((q = q2 ∧ ¬ ((q2.id == piece.id && q2.position == 57) = true)) ∨
        (q = { q2 with position := 99, isSafe := true } ∧
          q2.id = piece.id ∧ q2.position = 57)) := by
  unfold applyFinish at hq
  obtain ⟨p, hp, hpq⟩ := List.mem_map.1 hq
  by_cases hc : (p.id == piece.id && p.position == 57) = true
  · rw [if_pos hc] at hpq
    have hc' : p.id = piece.id ∧ p.position = 57 := by simpa using hc
    exact ⟨p, hp, Or.inr ⟨hpq.symm, hc'.1, hc'.2⟩⟩
  · rw [if_neg hc] at hpq
    exact ⟨p, hp, Or.inl ⟨hpq.symm, hc⟩⟩

lemma resolveMove_posOK {room : GameRoom} {curP : Player} {piece : GamePiece}
    {roll : Nat}
    (hcan : canMovePiece piece roll = true)
    (hmem : piece ∈ room.gameState.pieces)
    (hall : ∀ p ∈ room.gameState.pieces, PosOKp p) :
    ∀ q ∈ (resolveMove room curP piece roll).1.gameState.pieces, PosOKp q := by
  intro q hq
  rw [resolveMove_pieces] at hq
  obtain ⟨q2, hq2mem, hcase⟩ := applyFinish_mem hq
  have hq2 : q2.position = -1 ∨ q2 = movedPieceOf piece roll ∨
      q2 ∈ room.gameState.pieces := by
    rcases applyCapture_mem hq2mem with h | h
    · exact Or.inl h
    · rcases substMoved_mem h with h' | h'
      · exact Or.inr (Or.inl h')
      · exact Or.inr (Or.inr h')
  rcases hcase with ⟨rfl, hnofire⟩ | ⟨rfl, hid, h57⟩
  · rcases hq2 with h | h | h
    · exact Or.inl h
    · subst h
      have hb := movedPieceOf_position_bounds hcan (hall piece hmem)
      have hidt : ((movedPieceOf piece roll).id == piece.id) = true := by
        rw [movedPieceOf_id]
        exact beq_self_eq_true _
      have hne57 : (movedPieceOf piece roll).position ≠ 57 := by
        intro hcontra
        apply hnofire
        rw [hidt, Bool.true_and]
        exact beq_iff_eq.2 hcontra
      right
      left
      omega
    · exact hall _ h
  · right
    right
    rfl

lemma resolveMove_new99 {room : GameRoom} {curP : Player} {piece : GamePiece}
    {roll : Nat} {q : GamePiece}
    (hcan : canMovePiece piece roll = true)
    (hmem : piece ∈ room.gameState.pieces)
    (hall : ∀ p ∈ room.gameState.pieces, PosOKp p)
    (hq : q ∈ (resolveMove room curP piece roll).1.gameState.pieces)
    (h99 : q.position = 99) :
    (∃ p ∈ room.gameState.pieces, p.id = q.id ∧ p.position = 99) ∨
      (q.id = piece.id ∧ piece.position + (roll : Int) = 57) := by
  rw [resolveMove_pieces] at hq
  obtain ⟨q2, hq2mem, hcase⟩ := applyFinish_mem hq
  have hq2 : q2.position = -1 ∨ q2 = movedPieceOf piece roll ∨
      q2 ∈ room.gameState.pieces := by
    rcases applyCapture_mem hq2mem with h | h
    · exact Or.inl h
    · rcases substMoved_mem h with h' | h'
      · exact Or.inr (Or.inl h')
      · exact Or.inr (Or.inr h')
  rcases hcase with ⟨rfl, -⟩ | ⟨rfl, hid, h57⟩
  · rcases hq2 with h | h | h
    · rw [h99] at h
      norm_num at h
    · subst h
      have hb := movedPieceOf_position_bounds hcan (hall piece hmem)
      omega
    · exact Or.inl ⟨q, h, rfl, h99⟩
  · rcases hq2 with h | h | h
    · rw [h57] at h
      norm_num at h
    · right
      refine ⟨by simpa using hid, ?_⟩
      subst h
      have hmove : newPosition piece roll = 57 := h57
      unfold newPosition at hmove
      split at hmove
      · norm_num at hmove
      · exact hmove
    · exfalso
      have := hall q2 h
      unfold PosOKp at this
      omega

/- ## The position and dice invariants hold in every reachable room -/

lemma initialPieces_position {players : List Player} {p : GamePiece}
    (hp : p ∈ initialPieces players) : p.position = -1 := by
  unfold initialPieces at hp
  rw [List.mem_flatMap] at hp
  obtain ⟨pl, -, hmem⟩ := hp
  cases hcol : pl.color with
  | none =>
    rw [hcol] at hmem
    simp at hmem
  | some c =>
    rw [hcol] at hmem
    simp only [List.mem_map] at hmem
    obtain ⟨i, -, hi⟩ := hmem
    rw [← hi]

lemma startGame_posOK {r r' : GameRoom} (h : startGame r = Except.ok r') :
    PosOK r' := by
  unfold startGame at h
  split at h
  · cases h
  · cases h
    intro p hp
    exact Or.inl (initialPieces_position hp)

lemma step_posOK {r r' : GameRoom} (s : Step r r') (h : PosOK r) : PosOK r' := by
  cases s with
  | join pid nm hj =>
    intro p hp
    rw [joinRoom_gameState hj] at hp
    exact h p hp
  | choose pid c hc =>
    intro p hp
    rw [chooseColor_gameState hc] at hp
    exact h p hp
  | ready pid =>
    intro p hp
    rw [setReady_gameState] at hp
    exact h p hp
  | start hs => exact startGame_posOK hs
  | roll pid k h1 h6 hr =>
    intro p hp
    rw [rollDiceWith_pieces hr] at hp
    exact h p hp
  | move pid pieceId cp hm =>
    obtain ⟨curP, roll, piece, -, -, -, -, -, hfind, -, hcan, hout⟩ :=
      movePiece_ok_elim hm
    have hr' : r' = (resolveMove r curP piece roll).1 := congrArg Prod.fst hout
    intro p hp
    rw [hr'] at hp
    exact resolveMove_posOK hcan (List.mem_of_find?_eq_some hfind) h p hp
  | leave pid hl =>
    intro p hp
    rw [leaveRoom_gameState hl] at hp
    exact h p hp

lemma reachable_posOK {r : GameRoom} (h : Reachable r) : PosOK r := by
  obtain ⟨c, p, n, m, t, hchain⟩ := h
  induction hchain with
  | refl =>
    intro q hq
    cases hq
  | tail hchain s ih => exact step_posOK s ih

lemma startGame_diceOK {r r' : GameRoom} (h : startGame r = Except.ok r') :
    DiceOK r' := by
  unfold startGame at h
  split at h
  · cases h
  · cases h
    exact ⟨fun k hk => (nomatch hk), fun k hk => (nomatch hk)⟩

lemma step_diceOK {r r' : GameRoom} (s : Step r r') (h : DiceOK r) : DiceOK r' := by
  cases s with
  | join pid nm hj =>
    unfold DiceOK
    rw [joinRoom_gameState hj]
    exact h
  | choose pid c hc =>
    unfold DiceOK
    rw [chooseColor_gameState hc]
    exact h
  | ready pid =>
    unfold DiceOK
    rw [setReady_gameState]
    exact h
  | start hs => exact startGame_diceOK hs
  | roll pid k h1 h6 hr =>
    obtain ⟨curP, -, -, -, -, hbr⟩ := rollDiceWith_ok_elim hr
    rcases hbr with ⟨-, rfl⟩ | ⟨-, hk6, rfl⟩ | ⟨-, -, rfl⟩
    · refine ⟨fun k' hk' => ?_, h.2⟩
      cases hk'
      exact ⟨h1, h6⟩
    · refine ⟨fun k' hk' => (nomatch hk'), fun k' hk' => ?_⟩
      cases hk'
      omega
    · exact ⟨fun k' hk' => (nomatch hk'), h.2⟩
  | move pid pieceId cp hm =>
    obtain ⟨curP, roll, piece, -, -, -, -, hdice, -, -, -, hout⟩ :=
      movePiece_ok_elim hm
    have hr' : r' = (resolveMove r curP piece roll).1 := congrArg Prod.fst hout
    subst hr'
    refine ⟨fun k' hk' => ?_, fun k' hk' => ?_⟩
    · rw [resolveMove_diceValue] at hk'
      cases hk'
    · rcases resolveMove_lastDice r curP piece roll with hsame | ⟨hset, hne6⟩
      · rw [hsame] at hk'
        exact h.2 k' hk'
      · rw [hset] at hk'
        cases hk'
        have := h.1 roll hdice
        omega
  | leave pid hl =>
    unfold DiceOK
    rw [leaveRoom_gameState hl]
    exact h

lemma reachable_diceOK {r : GameRoom} (h : Reachable r) : DiceOK r := by
  obtain ⟨c, p, n, m, t, hchain⟩ := h
  induction hchain with
  | refl => exact ⟨fun k hk => (nomatch hk), fun k hk => (nomatch hk)⟩
  | tail hchain s ih => exact step_diceOK s ih

/- ## C6: rolling with no legal move -/

/-- C6: when the active player's color has no legal move for the pending
roll, the turn auto-advances: for a non-6 the roll is recorded as the next
player's bias seed, the first-roll flag resets, and the turn index advances
cyclically; for a 6 the same player retains the turn; in both cases the
pending roll is discarded. -/
theorem no_valid_moves_auto_advance (r : GameRoom) (pid : String) (roll : Nat)
    (curP : Player)
    (hs : r.gameState.started = true)
    (hcur : r.players.get? r.gameState.currentTurnIndex = some curP)
    (hpid : curP.id = pid)
    (hw : r.gameState.waitingForMove = false)
    (hnone : (r.gameState.pieces.filter (fun p => some p.color == curP.color)).all
        (fun p => !(canMovePiece p roll)) = true) :
    ∃ r', rollDiceWith r pid roll = Except.ok r' ∧
      r'.gameState.diceValue = none ∧
      (roll ≠ 6 →
        r'.gameState.lastDiceValue = some roll ∧
        r'.gameState.isFirstRollOfTurn = true ∧
        r'.gameState.currentTurnIndex =
          (r.gameState.currentTurnIndex + 1) % r.players.length) ∧
      (roll = 6 →
        r'.gameState.currentTurnIndex = r.gameState.currentTurnIndex ∧
        r'.gameState.lastDiceValue = r.gameState.lastDiceValue ∧
        r'.gameState.pieces = r.gameState.pieces) := by
  subst hpid
  have hany : (r.gameState.pieces.filter (fun p => some p.color == curP.color)).any
      (fun p => canMovePiece p roll) = false := by
    rw [List.any_eq_false]
    intro p hp
    have := (List.all_eq_true.1 hnone) p hp
    simpa using this
  by_cases h6 : roll = 6
  · subst h6
    refine ⟨{ r with gameState := { r.gameState with
        diceValue := none, isFirstRollOfTurn := false } }, ?_, rfl,
      fun hc => absurd rfl hc, fun _ => ⟨rfl, rfl, rfl⟩⟩
    simp only [rollDiceWith, hs, hcur, hw, hany, Bool.true_eq_false,
      if_false, bne_self_eq_false, Bool.false_eq_true, ne_eq,
      not_true_eq_false, if_true]
  · refine ⟨{ r with gameState := { r.gameState with
        diceValue := none, lastDiceValue := some roll,
        isFirstRollOfTurn := true,
        currentTurnIndex :=
          (r.gameState.currentTurnIndex + 1) % r.players.length } }, ?_, rfl,
      fun _ => ⟨rfl, rfl, rfl⟩, fun hc => absurd hc h6⟩
    simp only [rollDiceWith, hs, hcur, hw, hany, Bool.true_eq_false,
      if_false, bne_self_eq_false, Bool.false_eq_true, ne_eq, h6,
      not_false_eq_true, if_true]

/-- Witness for C6: in the freshly started two-player game `w6`, red rolls a
3 with every red piece still in base. -/
theorem no_valid_moves_auto_advance_witness :
    ∃ r', rollDiceWith w6 "p1" 3 = Except.ok r' ∧
      r'.gameState.diceValue = none ∧
      (3 ≠ 6 →
        r'.gameState.lastDiceValue = some 3 ∧
        r'.gameState.isFirstRollOfTurn = true ∧
        r'.gameState.currentTurnIndex =
          (w6.gameState.currentTurnIndex + 1) % w6.players.length) ∧
      (3 = 6 →
        r'.gameState.currentTurnIndex = w6.gameState.currentTurnIndex ∧
        r'.gameState.lastDiceValue = w6.gameState.lastDiceValue ∧
        r'.gameState.pieces = w6.gameState.pieces) :=
  no_valid_moves_auto_advance w6 "p1" 3
    { id := "p1", name := "Alice", color := some PlayerColor.red, ready := true }
    rfl rfl rfl rfl (by decide)

/- ## C7: move legality -/

/-- C7: move legality — with the caller being the active player, a move is
rejected with `mustRollFirst` when no roll is pending, with `invalidPiece`
when the chosen piece is not the active player's color, a base piece can
move exactly on a 6, and an overshooting move (`position + roll > 57`) is
rejected with `invalidMove` (no new room value is produced, so the piece is
unchanged). -/
theorem move_legality (r : GameRoom) (pid pieceId : String) (curP : Player)
    (piece : GamePiece) (roll : Nat)
    (hs : r.gameState.started = true)
    (hcur : r.players.get? r.gameState.currentTurnIndex = some curP)
    (hpid : curP.id = pid) :
    (r.gameState.diceValue = none →
      movePiece r pid pieceId = Except.error GameError.mustRollFirst) ∧
    (r.gameState.waitingForMove = true → r.gameState.diceValue = some roll →
      r.gameState.pieces.find? (fun p => p.id == pieceId) = some piece →
      some piece.color ≠ curP.color →
      movePiece r pid pieceId = Except.error GameError.invalidPiece) ∧
    (piece.position = -1 → (canMovePiece piece roll = true ↔ roll = 6)) ∧
    (r.gameState.waitingForMove = true → r.gameState.diceValue = some roll →
      r.gameState.pieces.find? (fun p => p.id == pieceId) = some piece →
      some piece.color = curP.color →
      57 < piece.position + (roll : Int) →
      movePiece r pid pieceId = Except.error GameError.invalidMove) := by
  subst hpid
  refine ⟨?_, ?_, ?_, ?_⟩
  · intro hdice
    cases hwb : r.gameState.waitingForMove with
    | false =>
      simp only [movePiece, hs, hcur, hwb, Bool.true_eq_false,
        Bool.false_eq_true, if_false, bne_self_eq_false, Bool.not_false,
        if_true]
    | true =>
      simp only [movePiece, hs, hcur, hwb, hdice, Bool.true_eq_false, if_false,
        bne_self_eq_false, Bool.not_true, Bool.false_eq_true, if_false]
  · intro hwait hdice hfind hcolor
    simp only [movePiece, hs, hcur, hwait, hdice, hfind, Bool.true_eq_false,
      if_false, bne_self_eq_false, Bool.not_true, Bool.false_eq_true]
    rw [if_pos (by simpa using hcolor)]
  · intro hbase
    unfold canMovePiece
    rw [if_pos hbase]
    exact ⟨fun h => by simpa using h, fun h => by simp [h]⟩
  · intro hwait hdice hfind hcolor hover
    have hcant : canMovePiece piece roll = false := by
      unfold canMovePiece
      by_cases hb : piece.position = -1
      · rw [if_pos hb]
        rw [hb] at hover
        have h6 : roll ≠ 6 := by omega
        simp [h6]
      · rw [if_neg hb, if_pos hover]
    simp only [movePiece, hs, hcur, hwait, hdice, hfind, hcant,
      Bool.true_eq_false, if_false, bne_self_eq_false, Bool.not_true,
      Bool.false_eq_true, Bool.not_false, if_true]
    rw [if_neg (by simp [hcolor])]

/-- Witness for C7: in `overRoom` red-0 sits at 55 with a pending 5; the
move overshoots and is rejected, and a base piece cannot move on that 5. -/
theorem move_legality_witness :
    movePiece overRoom "p1" "red-0" = Except.error GameError.invalidMove ∧
    (canMovePiece (pc "red-1" PlayerColor.red (-1)) 5 = true ↔ (5 : Nat) = 6) := by
  have h := move_legality overRoom "p1" "red-0"
    { id := "p1", name := "A", color := some PlayerColor.red, ready := true }
    (pc "red-1" PlayerColor.red (-1)) 5 rfl rfl rfl
  refine ⟨?_, h.2.2.1 rfl⟩
  have h4 := move_legality overRoom "p1" "red-0"
    { id := "p1", name := "A", color := some PlayerColor.red, ready := true }
    (pc "red-0" PlayerColor.red 55) 5 rfl rfl rfl
  exact h4.2.2.2 rfl rfl rfl rfl (by decide)

/- ## C4: turn continuation after a successful move -/

lemma resolveMove_winner (room : GameRoom) (curP : Player) (piece : GamePiece)
    (roll : Nat) :
    (resolveMove room curP piece roll).1.gameState.winner =
      winnerOf
        (applyFinish
          (applyCapture (substMoved room.gameState.pieces piece roll)
            (capturedOf (substMoved room.gameState.pieces piece roll) piece roll))
          piece)
        curP room.gameState.winner := by
  dsimp only [resolveMove]
  split <;> rfl

lemma winnerOf_isSome {pieces3 : List GamePiece} {curP : Player}
    {old : Option PlayerColor} (hc : curP.color.isSome = true)
    (ho : old.isSome = true) : (winnerOf pieces3 curP old).isSome = true := by
  unfold winnerOf
  split
  · exact hc
  · exact ho

lemma resolveMove_keep_turn {room : GameRoom} {curP : Player} {piece : GamePiece}
    {roll : Nat}
    (h : roll = 6 ∨ (resolveMove room curP piece roll).2.isSome = true ∨
      (resolveMove room curP piece roll).1.gameState.winner.isSome = true) :
    (resolveMove room curP piece roll).1.gameState.currentTurnIndex =
        room.gameState.currentTurnIndex ∧
      (resolveMove room curP piece roll).1.gameState.lastDiceValue =
        room.gameState.lastDiceValue ∧
      (resolveMove room curP piece roll).1.gameState.isFirstRollOfTurn =
        room.gameState.isFirstRollOfTurn := by
  rw [resolveMove_captured, resolveMove_winner] at h
  dsimp only [resolveMove]
  split
  next hcond =>
    exfalso
    rw [Bool.and_eq_true, Bool.not_eq_true', Bool.or_eq_false_iff] at hcond
    obtain ⟨⟨h6f, hcapf⟩, hwinn⟩ := hcond
    rcases h with h6 | hcap | hwin
    · rw [h6] at h6f
      simp at h6f
    · simp [hcapf] at hcap
    · rw [Option.isNone_iff_eq_none] at hwinn
      rw [hwinn] at hwin
      simp at hwin
  next => exact ⟨rfl, rfl, rfl⟩

lemma resolveMove_advance_turn {room : GameRoom} {curP : Player}
    {piece : GamePiece} {roll : Nat}
    (h6 : roll ≠ 6)
    (hcap : (resolveMove room curP piece roll).2 = none)
    (hwin : (resolveMove room curP piece roll).1.gameState.winner = none) :
    (resolveMove room curP piece roll).1.gameState.lastDiceValue = some roll ∧
      (resolveMove room curP piece roll).1.gameState.isFirstRollOfTurn = true ∧
      (resolveMove room curP piece roll).1.gameState.currentTurnIndex =
        (room.gameState.currentTurnIndex + 1) % room.players.length := by
  rw [resolveMove_captured] at hcap
  rw [resolveMove_winner] at hwin
  dsimp only [resolveMove]
  split
  next => exact ⟨rfl, rfl, rfl⟩
  next hcond =>
    exfalso
    apply hcond
    rw [hwin, hcap]
    simp [h6]

/-- C4: after a successful move the pending roll is always cleared; the
acting player keeps the turn (index, bias seed and first-roll flag all
unchanged) exactly when the roll was a 6, a capture occurred, or a winner
is recorded; otherwise the roll becomes the next player's bias seed, the
first-roll flag resets, and the turn index advances cyclically; and once a
winner is set the turn index never changes. -/
theorem turn_continuation (r : GameRoom) (pid pieceId : String) (r' : GameRoom)
    (cp : Option GamePiece) (roll : Nat)
    (hm : movePiece r pid pieceId = Except.ok (r', cp))
    (hroll : r.gameState.diceValue = some roll) :
    r'.gameState.diceValue = none ∧
    (roll = 6 ∨ cp.isSome = true ∨ r'.gameState.winner.isSome = true →
      r'.gameState.currentTurnIndex = r.gameState.currentTurnIndex ∧
      r'.gameState.lastDiceValue = r.gameState.lastDiceValue ∧
      r'.gameState.isFirstRollOfTurn = r.gameState.isFirstRollOfTurn) ∧
    (roll ≠ 6 → cp = none → r'.gameState.winner = none →
      r'.gameState.lastDiceValue = some roll ∧
      r'.gameState.isFirstRollOfTurn = true ∧
      r'.gameState.currentTurnIndex =
        (r.gameState.currentTurnIndex + 1) % r.players.length) ∧
    (r.gameState.winner.isSome = true →
      r'.gameState.winner.isSome = true ∧
      r'.gameState.currentTurnIndex = r.gameState.currentTurnIndex) := by
  obtain ⟨curP, roll', piece, -, -, -, -, hdice, hfind, hcol, -, hout⟩ :=
    movePiece_ok_elim hm
  rw [hroll] at hdice
  injection hdice with hr12
  subst hr12
  have hr' : r' = (resolveMove r curP piece roll).1 := congrArg Prod.fst hout
  have hcp : cp = (resolveMove r curP piece roll).2 := congrArg Prod.snd hout
  subst hr'
  subst hcp
  have hwsome : r.gameState.winner.isSome = true →
      (resolveMove r curP piece roll).1.gameState.winner.isSome = true := by
    intro hw
    rw [resolveMove_winner]
    refine winnerOf_isSome ?_ hw
    rw [← hcol]
    rfl
  refine ⟨resolveMove_diceValue r curP piece roll, ?_, ?_, ?_⟩
  · exact resolveMove_keep_turn
  · intro h6 hcap hwin
    exact resolveMove_advance_turn h6 hcap hwin
  · intro hw
    refine ⟨hwsome hw, ?_⟩
    exact (resolveMove_keep_turn (Or.inr (Or.inr (hwsome hw)))).1

/-- Witness for C4: red moves red-0 out of base on a 6 in `w6r` and keeps
the turn with the pending roll cleared. -/
theorem turn_continuation_witness :
    w6m.1.gameState.diceValue = none ∧
    w6m.1.gameState.currentTurnIndex = w6r.gameState.currentTurnIndex := by
  have h := turn_continuation w6r "p1" "red-0" w6m.1 w6m.2 6 rfl rfl
  exact ⟨h.1, (h.2.1 (Or.inl rfl)).1⟩

/- ## C5: the capture rule -/

lemma find?_map_pred_stable {l : List GamePiece} {f : GamePiece → GamePiece}
    {pr : GamePiece → Bool}
    (h1 : ∀ x, pr (f x) = pr x) (h2 : ∀ x, pr x = true → f x = x) :
    (l.map f).find? pr = l.find? pr := by
  induction l with
  | nil => rfl
  | cons a l ih =>
    simp only [List.map_cons]
    by_cases hpa : pr a = true
    · rw [List.find?_cons_of_pos _ (by rw [h1]; exact hpa),
        List.find?_cons_of_pos _ hpa, h2 a hpa]
    · have hfa : ¬ pr (f a) = true := by
        rw [h1]
        exact hpa
      rw [List.find?_cons_of_neg _ hfa, List.find?_cons_of_neg _ hpa]
      exact ih

lemma capturedOf_eq_find_original (pieces : List GamePiece) (piece : GamePiece)
    (roll : Nat)
    (hcap : 0 ≤ (movedPieceOf piece roll).position ∧
      (movedPieceOf piece roll).position ≤ 50 ∧
      SAFE_SPOT_POSITIONS.contains
        (getAbsoluteTrackPosition (movedPieceOf piece roll)) = false) :
    capturedOf (substMoved pieces piece roll) piece roll =
      pieces.find? (fun other =>
        other.id != piece.id && other.color != piece.color &&
        decide (0 ≤ other.position) && decide (other.position ≤ 50) &&
        getAbsoluteTrackPosition other ==
          getAbsoluteTrackPosition (movedPieceOf piece roll)) := by
  unfold capturedOf
  rw [if_pos ⟨hcap.1, hcap.2.1⟩]
  dsimp only
  rw [if_neg (by rw [hcap.2.2]; exact Bool.false_ne_true)]
  unfold substMoved
  apply find?_map_pred_stable
  · intro x
    by_cases hid : (x.id == piece.id) = true
    · rw [if_pos hid]
      have hxm : ((movedPieceOf piece roll).id != piece.id) = false := by
        simp [movedPieceOf_id]
      have hx : (x.id != piece.id) = false := by
        simpa using hid
      simp [hxm, hx]
    · rw [if_neg hid]
  · intro x hx
    simp only [Bool.and_eq_true] at hx
    have hne : (x.id != piece.id) = true := hx.1.1.1.1
    rw [if_neg (by simpa using hne)]

lemma captured_in_base {pieces : List GamePiece} {piece : GamePiece} {roll : Nat}
    {c : GamePiece}
    (hfound : capturedOf (substMoved pieces piece roll) piece roll = some c) :
    ({ c with position := -1, isSafe := true } : GamePiece) ∈
      applyFinish
        (applyCapture (substMoved pieces piece roll)
          (capturedOf (substMoved pieces piece roll) piece roll))
        piece := by
  have hcmem : c ∈ substMoved pieces piece roll := by
    dsimp only [capturedOf] at hfound
    split at hfound
    · split at hfound
      · cases hfound
      · exact List.mem_of_find?_eq_some hfound
    · cases hfound
  rw [hfound]
  have hreset : ({ c with position := -1, isSafe := true } : GamePiece) ∈
      applyCapture (substMoved pieces piece roll) (some c) := by
    unfold applyCapture
    have hmm := List.mem_map_of_mem
      (fun p => if p.id == c.id then
        ({ p with position := -1, isSafe := true } : GamePiece) else p) hcmem
    simpa using hmm
  unfold applyFinish
  have hmm := List.mem_map_of_mem
    (fun p => if p.id == piece.id && p.position == 57 then
      ({ p with position := 99, isSafe := true } : GamePiece) else p) hreset
  simpa using hmm

lemma capturedOf_none_of_off_track {pieces1 : List GamePiece} {piece : GamePiece}
    {roll : Nat}
    (h : ¬ (0 ≤ (movedPieceOf piece roll).position ∧
        (movedPieceOf piece roll).position ≤ 50)) :
    capturedOf pieces1 piece roll = none := by
  unfold capturedOf
  rw [if_neg h]

lemma capturedOf_none_of_safe {pieces1 : List GamePiece} {piece : GamePiece}
    {roll : Nat}
    (h0 : 0 ≤ (movedPieceOf piece roll).position ∧
      (movedPieceOf piece roll).position ≤ 50)
    (hsafe : SAFE_SPOT_POSITIONS.contains
      (getAbsoluteTrackPosition (movedPieceOf piece roll)) = true) :
    capturedOf pieces1 piece roll = none := by
  unfold capturedOf
  rw [if_pos h0]
  dsimp only
  rw [if_pos hsafe]

lemma no_capture_preserves {pieces : List GamePiece} {piece : GamePiece}
    {roll : Nat}
    (hnone : capturedOf (substMoved pieces piece roll) piece roll = none) :
    ∀ q ∈ pieces, q.id ≠ piece.id →
      q ∈ applyFinish
        (applyCapture (substMoved pieces piece roll)
          (capturedOf (substMoved pieces piece roll) piece roll))
        piece := by
  intro q hq hne
  rw [hnone]
  have hq1 : q ∈ substMoved pieces piece roll := by
    unfold substMoved
    have hmm := List.mem_map_of_mem
      (fun p => if p.id == piece.id then movedPieceOf piece roll else p) hq
    simpa [hne] using hmm
  unfold applyCapture applyFinish
  have hmm := List.mem_map_of_mem
    (fun p => if p.id == piece.id && p.position == 57 then
      ({ p with position := 99, isSafe := true } : GamePiece) else p) hq1
  simpa [hne] using hmm

/-- C5: when the moved piece's new position is on the main track (0..50) on
a non-safe absolute cell, the reported capture is exactly the first
other-colored on-track piece of the original list standing on that absolute
cell, and that piece is sent to base (`position = -1`, `safe = true`);
when the landing cell is safe or the new position is off the main track, no
capture occurs and every piece other than the moved one is untouched. -/
theorem capture_rule (r : GameRoom) (pid pieceId : String) (r' : GameRoom)
    (cp : Option GamePiece) (piece : GamePiece) (roll : Nat)
    (hm : movePiece r pid pieceId = Except.ok (r', cp))
    (hf : r.gameState.pieces.find? (fun p => p.id == pieceId) = some piece)
    (hd : r.gameState.diceValue = some roll) :
    (0 ≤ (movedPieceOf piece roll).position ∧
        (movedPieceOf piece roll).position ≤ 50 ∧
        SAFE_SPOT_POSITIONS.contains
          (getAbsoluteTrackPosition (movedPieceOf piece roll)) = false →
      cp = r.gameState.pieces.find? (fun other =>
        other.id != piece.id && other.color != piece.color &&
        decide (0 ≤ other.position) && decide (other.position ≤ 50) &&
        getAbsoluteTrackPosition other ==
          getAbsoluteTrackPosition (movedPieceOf piece roll)) ∧
      (∀ c, cp = some c →
        ({ c with position := -1, isSafe := true } : GamePiece) ∈
          r'.gameState.pieces)) ∧
    ((¬ (0 ≤ (movedPieceOf piece roll).position ∧
          (movedPieceOf piece roll).position ≤ 50)) ∨
        SAFE_SPOT_POSITIONS.contains
          (getAbsoluteTrackPosition (movedPieceOf piece roll)) = true →
      cp = none ∧
      ∀ q ∈ r.gameState.pieces, q.id ≠ piece.id → q ∈ r'.gameState.pieces) := by
  obtain ⟨curP, roll', piece', -, -, -, -, hdice, hfind, -, -, hout⟩ :=
    movePiece_ok_elim hm
  rw [hd] at hdice
  injection hdice with h1
  subst h1
  rw [hf] at hfind
  injection hfind with h2
  subst h2
  have hr' : r' = (resolveMove r curP piece roll).1 := congrArg Prod.fst hout
  have hcp : cp = (resolveMove r curP piece roll).2 := congrArg Prod.snd hout
  subst hr'
  subst hcp
  rw [resolveMove_captured, resolveMove_pieces]
  constructor
  · intro hcap
    refine ⟨capturedOf_eq_find_original r.gameState.pieces piece roll hcap, ?_⟩
    intro c hc
    exact captured_in_base hc
  · intro hno
    have hnone : capturedOf (substMoved r.gameState.pieces piece roll) piece
        roll = none := by
      rcases hno with h | h
      · exact capturedOf_none_of_off_track h
      · by_cases h0 : 0 ≤ (movedPieceOf piece roll).position ∧
            (movedPieceOf piece roll).position ≤ 50
        · exact capturedOf_none_of_safe h0 h
        · exact capturedOf_none_of_off_track h0
    exact ⟨hnone, no_capture_preserves hnone⟩

/-- Witness for C5: in `capRoom`, red-0 moves from 3 to 5 (absolute cell 5,
not safe) and captures yellow-0, which is reported with its old position 31
and sent to base. -/
theorem capture_rule_witness :
    capMove.2 = some (pc "yellow-0" PlayerColor.yellow 31) ∧
    ({ pc "yellow-0" PlayerColor.yellow 31 with
        position := -1, isSafe := true } : GamePiece) ∈
      capMove.1.gameState.pieces := by
  have h := capture_rule capRoom "p1" "red-0" capMove.1 capMove.2
    (pc "red-0" PlayerColor.red 3) 2 rfl rfl rfl
  have hcap := h.1 (by decide)
  constructor
  · rw [hcap.1]
    decide
  · exact hcap.2 (pc "yellow-0" PlayerColor.yellow 31) (by rw [hcap.1]; decide)

/- ## C2: the weight-vector computation -/

lemma rollWeights_eq_specBias {k : Nat} (h1 : 1 ≤ k) (h5 : k ≤ 5) :
    rollWeights false (some k) true = specBiasVector k := by
  have hr : List.range 6 = [0, 1, 2, 3, 4, 5] := by decide
  interval_cases k <;>
    · norm_num [rollWeights, specBiasVector, baseWeights, hr]

lemma rollWeights_baseline_of_not_first (lr : Option Nat) :
    rollWeights false lr false = baseWeights := by
  cases lr <;> rfl

/-- C2: in every reachable room the weight vector computed for the roller is
exactly the specified one — `[10,10,10,10,10,50]` whenever all of the
roller's own pieces are in base (regardless of the previous roll);
otherwise, when a previous final roll `k` is recorded and this is the first
roll of the turn, the spec's repeat-avoidance vector `specBiasVector k`
(weight at index `k-1` reduced to 2, face 6 boosted by 1.5 even shares, the
remaining four faces by 0.875 even shares) with `k` necessarily in `1..5`;
otherwise the baseline `[15,15,15,15,15,25]`. -/
theorem weighted_die_matches_spec (r : GameRoom) (curP : Player) (ws : List ℚ)
    (hR : Reachable r)
    (hcur : r.players.get? r.gameState.currentTurnIndex = some curP)
    (hws : roomRollWeights r = some ws) :
    ((r.gameState.pieces.filter (fun p => some p.color == curP.color)).all
        (fun p => p.position == -1) = true →
      ws = [10, 10, 10, 10, 10, 50]) ∧
    ((r.gameState.pieces.filter (fun p => some p.color == curP.color)).all
        (fun p => p.position == -1) = false →
      (∀ k, r.gameState.lastDiceValue = some k →
        r.gameState.isFirstRollOfTurn = true →
        1 ≤ k ∧ k ≤ 5 ∧ ws = specBiasVector k) ∧
      ((r.gameState.lastDiceValue = none ∨
          r.gameState.isFirstRollOfTurn = false) →
        ws = baseWeights)) := by
  unfold roomRollWeights at hws
  rw [hcur] at hws
  dsimp only at hws
  injection hws with hws
  constructor
  · intro hall
    rw [hall] at hws
    rw [← hws]
    rfl
  · intro hall
    rw [hall] at hws
    constructor
    · intro k hk hfirst
      have hbound := (reachable_diceOK hR).2 k hk
      refine ⟨hbound.1, hbound.2, ?_⟩
      rw [← hws, hk, hfirst]
      exact rollWeights_eq_specBias hbound.1 hbound.2
    · intro hbase
      rcases hbase with hnone | hnotfirst
      · rw [← hws, hnone]
        cases r.gameState.isFirstRollOfTurn <;> rfl
      · rw [← hws, hnotfirst]
        exact rollWeights_baseline_of_not_first _
  
/-- Witness for C2 at the reachable room `w7`: yellow is to roll with every
yellow piece in base, so the computed vector is the all-in-base override. -/
theorem weighted_die_matches_spec_witness :
    roomRollWeights w7 = some ([10, 10, 10, 10, 10, 50] : List ℚ) ∧
    ([10, 10, 10, 10, 10, 50] : List ℚ) = [10, 10, 10, 10, 10, 50] := by
  refine ⟨rfl, ?_⟩
  exact (weighted_die_matches_spec w7
    { id := "p2", name := "Bob", color := some PlayerColor.yellow, ready := true }
    ([10, 10, 10, 10, 10, 50] : List ℚ) reach_w7 rfl rfl).1 rfl

/- ## C8: the position domain -/

/-- C8: in every reachable room, every piece's position lies in
`{-1} ∪ [0,56] ∪ {99}`; and across any successful move, a piece that ends
at 99 either already was at 99 or is the moved piece whose old position
plus the pending roll is exactly 57 (the transient value immediately
normalized to 99). -/
theorem piece_positions_in_domain (r : GameRoom) (hR : Reachable r) :
    (∀ p ∈ r.gameState.pieces,
        p.position = -1 ∨ (0 ≤ p.position ∧ p.position ≤ 56) ∨
          p.position = 99) ∧
    (∀ pid pieceId r' cp, movePiece r pid pieceId = Except.ok (r', cp) →
      ∀ q ∈ r'.gameState.pieces, q.position = 99 →
        (∃ p ∈ r.gameState.pieces, p.id = q.id ∧ p.position = 99) ∨
        (∃ piece roll, r.gameState.diceValue = some roll ∧
          r.gameState.pieces.find? (fun p => p.id == pieceId) = some piece ∧
          q.id = piece.id ∧ piece.position + (roll : Int) = 57)) := by
  have hpos := reachable_posOK hR
  refine ⟨hpos, ?_⟩
  intro pid pieceId r' cp hm q hq h99
  obtain ⟨curP, roll, piece, -, -, -, -, hdice, hfind, -, hcan, hout⟩ :=
    movePiece_ok_elim hm
  have hr' : r' = (resolveMove r curP piece roll).1 := congrArg Prod.fst hout
  subst hr'
  rcases resolveMove_new99 hcan (List.mem_of_find?_eq_some hfind) hpos hq h99
    with h | ⟨hid, h57⟩
  · exact Or.inl h
  · exact Or.inr ⟨piece, roll, hdice, hfind, hid, h57⟩

/-- Witness for C8 at the reachable room `w7`, instantiated at its first
piece red-0 (in base). -/
theorem piece_positions_in_domain_witness :
    ({ pc "red-0" PlayerColor.red (-1) with isSafe := true } : GamePiece).position = -1 ∨
      (0 ≤ ({ pc "red-0" PlayerColor.red (-1) with isSafe := true } : GamePiece).position ∧
        ({ pc "red-0" PlayerColor.red (-1) with isSafe := true } : GamePiece).position ≤ 56) ∨
      ({ pc "red-0" PlayerColor.red (-1) with isSafe := true } : GamePiece).position = 99 :=
  (piece_positions_in_domain w7 reach_w7).1
    { pc "red-0" PlayerColor.red (-1) with isSafe := true } (by decide)

/- ## C9: starting the game -/

lemma initialPieces_cons (a : Player) (l : List Player) :
    initialPieces (a :: l) =
      (match a.color with
        | some c =>
          (List.range 4).map (fun i =>
            ({ id := colorName c ++ "-" ++ toString i, color := c,
               position := -1, isSafe := true } : GamePiece))
        | none => []) ++ initialPieces l := by
  unfold initialPieces
  rw [List.flatMap_cons]

lemma initialPieces_length {players : List Player}
    (hall : ∀ pl ∈ players, pl.color.isSome = true) :
    (initialPieces players).length = 4 * players.length := by
  induction players with
  | nil => rfl
  | cons a l ih =>
    have ha := hall a (List.mem_cons_self a l)
    have hi : (initialPieces l).length = 4 * l.length :=
      ih (fun pl hpl => hall pl (List.mem_cons_of_mem a hpl))
    obtain ⟨c, hc⟩ := Option.isSome_iff_exists.1 ha
    rw [initialPieces_cons, hc, List.length_append, hi]
    simp only [List.length_map, List.length_range, List.length_cons]
    ring

lemma initialPieces_count_zero {players : List Player} {c : PlayerColor}
    (h : ∀ pl ∈ players, pl.color ≠ some c) :
    ((initialPieces players).filter (fun p => p.color == c)).length = 0 := by
  induction players with
  | nil => rfl
  | cons a l ih =>
    have hrest : ((initialPieces l).filter (fun p => p.color == c)).length = 0 :=
      ih (fun pl hpl => h pl (List.mem_cons_of_mem a hpl))
    rw [initialPieces_cons, List.filter_append, List.length_append, hrest]
    cases hac : a.color with
    | none => rfl
    | some c' =>
      have hne : c' ≠ c := by
        intro hx
        exact h a (List.mem_cons_self a l) (by rw [hac, hx])
      have hblock : (((List.range 4).map (fun i =>
          ({ id := colorName c' ++ "-" ++ toString i, color := c',
             position := -1, isSafe := true } : GamePiece))).filter
          (fun p => p.color == c)) = [] := by
        rw [List.filter_eq_nil_iff]
        intro p hp
        obtain ⟨i, -, hi⟩ := List.mem_map.1 hp
        rw [← hi]
        simpa using hne
      rw [hblock]
      rfl

lemma initialPieces_count {players : List Player} {c : PlayerColor}
    (hpw : players.Pairwise (fun a b => a.color ≠ b.color ∨ a.color = none))
    {pl₀ : Player} (hmem : pl₀ ∈ players) (hc : pl₀.color = some c) :
    ((initialPieces players).filter (fun p => p.color == c)).length = 4 := by
  induction players with
  | nil => cases hmem
  | cons a l ih =>
    rw [List.pairwise_cons] at hpw
    rw [initialPieces_cons, List.filter_append, List.length_append]
    rcases List.mem_cons.1 hmem with rfl | hmem'
    · have hrest : ∀ pl ∈ l, pl.color ≠ some c := by
        intro pl hpl hplc
        rcases hpw.1 pl hpl with hne | hnone
        · exact hne (hc.trans hplc.symm)
        · rw [hnone] at hc
          cases hc
      rw [initialPieces_count_zero hrest, hc]
      have hblock : (((List.range 4).map (fun i =>
          ({ id := colorName c ++ "-" ++ toString i, color := c,
             position := -1, isSafe := true } : GamePiece))).filter
          (fun p => p.color == c)) = ((List.range 4).map (fun i =>
          ({ id := colorName c ++ "-" ++ toString i, color := c,
             position := -1, isSafe := true } : GamePiece))) := by
        rw [List.filter_eq_self]
        intro p hp
        obtain ⟨i, -, hi⟩ := List.mem_map.1 hp
        rw [← hi]
        simp
      rw [hblock]
      simp
    · have hane : a.color ≠ some c := by
        intro hac
        rcases hpw.1 pl₀ hmem' with hne | hnone
        · exact hne (hac.trans hc.symm)
        · rw [hnone] at hac
          cases hac
      have hi := ih hpw.2 hmem'
      cases hac : a.color with
      | none =>
        simpa using hi
      | some c' =>
        have hne : c' ≠ c := by
          intro hx
          exact hane (by rw [hac, hx])
        have hblock : (((List.range 4).map (fun i =>
            ({ id := colorName c' ++ "-" ++ toString i, color := c',
               position := -1, isSafe := true } : GamePiece))).filter
            (fun p => p.color == c)) = [] := by
          rw [List.filter_eq_nil_iff]
          intro p hp
          obtain ⟨i, -, hi2⟩ := List.mem_map.1 hp
          rw [← hi2]
          simpa using hne
        rw [hblock]
        simpa using hi

/-- C9: `startGame` fails with `notAllReady` exactly when `canStartGame` is
false (player count between 2 and mode capacity and everyone colored and
ready); on success it produces exactly 4 pieces per claimed color, all at
position -1, turn index 0, no pending roll, no winner, and the started
flag set.  The pairwise hypothesis (no two players share a claimed color)
is what `chooseColor` enforces in any real room. -/
theorem start_game_spec (r : GameRoom)
    (hcolors : r.players.Pairwise (fun a b => a.color ≠ b.color ∨ a.color = none)) :
    (canStartGame r = false → startGame r = Except.error GameError.notAllReady) ∧
    (canStartGame r = true → ∃ r', startGame r = Except.ok r' ∧
      r'.gameState.started = true ∧
      r'.gameState.currentTurnIndex = 0 ∧
      r'.gameState.diceValue = none ∧
      r'.gameState.winner = none ∧
      (∀ p ∈ r'.gameState.pieces, p.position = -1) ∧
      r'.gameState.pieces.length = 4 * r.players.length ∧
      (∀ pl ∈ r.players, ∀ c, pl.color = some c →
        (r'.gameState.pieces.filter (fun p => p.color == c)).length = 4)) := by
  constructor
  · intro hfalse
    unfold startGame
    rw [if_pos (by simp [hfalse])]
  · intro htrue
    have hall : ∀ pl ∈ r.players, pl.color.isSome = true := by
      intro pl hpl
      unfold canStartGame at htrue
      simp only [Bool.and_eq_true, List.all_eq_true] at htrue
      exact ((htrue.2 pl hpl).1)
    refine ⟨{ r with gameState :=
      { pieces := initialPieces r.players
        currentTurnIndex := 0
        diceValue := none
        lastDiceValue := none
        isFirstRollOfTurn := true
        waitingForMove := false
        winner := none
        started := true } }, ?_, rfl, rfl, rfl, rfl, ?_, ?_, ?_⟩
    · unfold startGame
      rw [if_neg (by simp [htrue])]
    · intro p hp
      exact initialPieces_position hp
    · exact initialPieces_length hall
    · intro pl hpl c hc
      exact initialPieces_count hcolors hpl hc

/-- Witness for C9, spec scenario A: the ready two-player room `w5` with red
and yellow starts into 8 pieces, all at -1, with turn index 0. -/
theorem start_game_spec_witness :
    ∃ r', startGame w5 = Except.ok r' ∧
      r'.gameState.started = true ∧
      r'.gameState.currentTurnIndex = 0 ∧
      r'.gameState.diceValue = none ∧
      r'.gameState.winner = none ∧
      (∀ p ∈ r'.gameState.pieces, p.position = -1) ∧
      r'.gameState.pieces.length = 4 * w5.players.length ∧
      (∀ pl ∈ w5.players, ∀ c, pl.color = some c →
        (r'.gameState.pieces.filter (fun p => p.color == c)).length = 4) :=
  (start_game_spec w5 (by decide)).2 (by decide)

/- ## C10: color change after the game has started -/

lemma find?_updateFirst {ps : List Player} {pid : String} {p : Player}
    (f : Player → Player) (hf : ∀ q, (f q).id = q.id)
    (h : ps.find? (fun q => q.id == pid) = some p) :
    (updateFirst ps pid f).find? (fun q => q.id == pid) = some (f p) := by
  induction ps with
  | nil => cases h
  | cons a l ih =>
    unfold updateFirst
    by_cases ha : a.id = pid
    · rw [if_pos ha]
      rw [List.find?_cons_of_pos _ (by simpa using ha)] at h
      injection h with h
      subst h
      rw [List.find?_cons_of_pos _ (by simp [hf, ha])]
    · rw [if_neg ha]
      rw [List.find?_cons_of_neg _ (by simpa using ha)] at h
      rw [List.find?_cons_of_neg _ (by simpa using ha)]
      exact ih h

/-- C10: `chooseColor` performs no check of the started flag — unlike
`joinRoom` — so in a started room a player can still claim (or change to)
any color that is valid for the mode and not held by another player, and
the claim overwrites that player's color while leaving the game state
untouched. -/
theorem choose_color_ignores_started (r : GameRoom) (pid : String)
    (c : PlayerColor) (p : Player)
    (hstarted : r.gameState.started = true)
    (havail : (availableColorsFor r.gameMode).contains c = true)
    (hfree : ∀ q ∈ r.players, q.color = some c → q.id = pid)
    (hmem : r.players.find? (fun q => q.id == pid) = some p) :
    ∃ r', chooseColor r pid c = Except.ok r' ∧
      r'.gameState = r.gameState ∧
      r'.players.find? (fun q => q.id == pid) =
        some { p with color := some c } ∧
      (r.players.length < maxPlayersFor r.gameMode →
        ∀ pid2 nm2, joinRoom r pid2 nm2 =
          Except.error GameError.gameAlreadyStarted) := by
  have hany : r.players.any (fun q => q.color == some c && q.id != pid) = false := by
    rw [List.any_eq_false]
    intro q hq hcontra
    rw [Bool.and_eq_true] at hcontra
    have h1 : q.color = some c := by simpa using hcontra.1
    have h2 : q.id ≠ pid := by simpa using hcontra.2
    exact h2 (hfree q hq h1)
  have hqid : ∀ q : Player, ({ q with color := some c } : Player).id = q.id :=
    fun q => rfl
  refine
    ⟨{ r with
       players := updateFirst r.players pid (fun q => { q with color := some c }) },
     ?_, rfl, ?_, ?_⟩
  · unfold chooseColor
    rw [if_neg (not_not_intro havail), if_neg (by simp [hany])]
  · exact find?_updateFirst _ (fun q => rfl) hmem
  · intro hlt pid2 nm2
    unfold joinRoom
    rw [if_neg (by omega), if_pos hstarted]

/-- Witness for C10: in the started game `w6`, Alice re-claims red; the
claim succeeds and the game state is untouched, while joining is refused. -/
theorem choose_color_ignores_started_witness :
    ∃ r', chooseColor w6 "p1" PlayerColor.red = Except.ok r' ∧
      r'.gameState = w6.gameState ∧
      r'.players.find? (fun q => q.id == "p1") =
        some { id := "p1", name := "Alice", color := some PlayerColor.red,
               ready := true } ∧
      (w6.players.length < maxPlayersFor w6.gameMode →
        ∀ pid2 nm2, joinRoom w6 pid2 nm2 =
          Except.error GameError.gameAlreadyStarted) :=
  choose_color_ignores_started w6 "p1" PlayerColor.red
    { id := "p1", name := "Alice", color := some PlayerColor.red, ready := true }
    rfl (by decide) (by decide) rfl
